import Mathlib

/-!
Shallow embedding of the point-cloud pipeline in `open3d_gui/helper.py` and
the color assembly step of `open3d_gui/tech_blog_demo.py`.

Images (numpy 2-D arrays) are embedded as lists of rows; floating-point
values are embedded as rationals (exact arithmetic; where the real code
would produce non-finite floats or wrap a machine integer type, the
divergence is noted at the definition).
-/

/-- A 2-D image: a list of rows, each row a list of pixel values
(the embedding of a numpy 2-D array). -/
abbrev Grid (α : Type) : Type := List (List α)

/-- Pixel access `m[r, c]` with numpy-style in-bounds use only; the default
is never reached on a rectangular grid at in-range indices. -/
def maskVal (m : Grid Nat) (r c : Nat) : Nat :=
  (m.getD r []).getD c 0

/-- The camera-intrinsics record `depth_intrinsics_dict` of `helper.py`:
keys `ppx, ppy, fx, fy` and the 5-element distortion vector `coeffs`. -/
structure Intrinsics where
  ppx : ℚ
  ppy : ℚ
  fx : ℚ
  fy : ℚ
  coeffs : List ℚ

/-- Embedding of `pix2point` (helper.py lines 4-36).  The numpy code builds
`meshgrid` index arrays and applies the arithmetic elementwise; the embedding
computes the same arithmetic per pixel `(row, col)` and packages the final
`np.transpose(np.array([point_array_x, point_array_y, depth]), (1, 2, 0))`
as one triple per pixel.  Division is total on ℚ (the code has no guard for
`fx = 0` or `fy = 0`; numpy would emit non-finite values there, also without
raising). -/
def pix2point (depth : Grid ℚ) (intr : Intrinsics) : Grid (ℚ × ℚ × ℚ) :=
  let height := depth.length
  let width := (depth.headD []).length
  (List.range height).map fun (row : Nat) =>
    (List.range width).map fun (col : Nat) =>
      let x := ((col : ℚ) - intr.ppx) / intr.fx
      let y := ((row : ℚ) - intr.ppy) / intr.fy
      let r2 := x * x + y * y
      let f := 1 + intr.coeffs.getD 0 0 * r2 + intr.coeffs.getD 1 0 * r2 * r2 +
        intr.coeffs.getD 4 0 * r2 * r2 * r2
      let ux := x * f + 2 * intr.coeffs.getD 2 0 * x * y +
        intr.coeffs.getD 3 0 * (r2 + 2 * x * x)
      let uy := y * f + 2 * intr.coeffs.getD 3 0 * x * y +
        intr.coeffs.getD 2 0 * (r2 + 2 * y * y)
      let d := (depth.getD row []).getD col 0
      (d * ux, d * uy, d)

/-- One step of the mask-overwrite loop of `get_food_mask`
(`ranked_food_mask[results["masks"][idx] == 1] = idx`), restricted to one
pixel: the enumerated mask overwrites the accumulated label where its value
is 1. -/
def rankStep (r c : Nat) (acc : Int) (im : Nat × Grid Nat) : Int :=
  if maskVal im.2 r c = 1 then (im.1 : Int) else acc

/-- The final label of pixel `(r, c)` after the `for idx in sorted_idx`
loop of `get_food_mask`: the sequential overwrite, starting from the
background value -1. -/
def labelAt (masks : List (Grid Nat)) (r c : Nat) : Int :=
  masks.enum.foldl (rankStep r c) (-1)

/-- Embedding of the `.astype("int16")` cast applied to the unique label
values in `get_food_mask`: wraparound into [-2^15, 2^15). -/
def toInt16 (v : Int) : Int :=
  (v + 2 ^ 15) % 2 ^ 16 - 2 ^ 15

/-- Sorted insertion keeping elements distinct; building block of the
embedding of `np.unique` (sorted distinct values). -/
def insertSorted (x : Int) : List Int → List Int
  | [] => [x]
  | y :: ys =>
    if x < y then x :: y :: ys
    else if x = y then y :: ys
    else y :: insertSorted x ys

/-- Embedding of `np.unique`: the distinct values of a list, sorted
ascending. -/
def sortedDedup (l : List Int) : List Int :=
  l.foldr insertSorted []

/-- Embedding of `get_food_mask` (helper.py lines 39-62).  The source reads
`results["masks"][0].shape` before anything else, so an empty mask list
raises `IndexError`; this is modelled by `none`.  Otherwise it returns the
ranked label image (per-pixel sequential overwrite over the input order)
and `np.unique(ranked).astype("int16")` filtered of the background -1. -/
def get_food_mask (masks : List (Grid Nat)) : Option (Grid Int × List Int) :=
  match masks with
  | [] => none
  | m0 :: _ =>
    let height := m0.length
    let width := (m0.headD []).length
    let ranked : Grid Int :=
      (List.range height).map fun r =>
        (List.range width).map fun c => labelAt masks r c
    let uniq := (sortedDedup ranked.flatten).map toInt16
    some (ranked, uniq.filter (fun v => v != -1))

/-- Resolution of one bound of a numpy basic slice `a[start:stop]` over an
axis of length `n`: a negative index counts from the end, then the bound is
clipped into `[0, n]`. -/
def sliceIdx (n : Nat) (i : Int) : Nat :=
  if i < 0 then ((n : Int) + i).toNat else (min (n : Int) i).toNat

/-- The rectangle branch of `json2results`
(`mask[p0y:p1y, p0x:p1x] = 1` over `np.zeros(shape_)`): per pixel, 1 inside
the resolved row/column slices and 0 elsewhere.  `p0` and `p1` are the two
annotation vertices as `(x, y) = (col, row)` integer pairs. -/
def rectMask (hgt wdt : Nat) (p0 p1 : Int × Int) : Grid Nat :=
  (List.range hgt).map fun r =>
    (List.range wdt).map fun c =>
      if sliceIdx hgt p0.2 ≤ r ∧ r < sliceIdx hgt p1.2 ∧
          sliceIdx wdt p0.1 ≤ c ∧ c < sliceIdx wdt p1.1 then 1 else 0

/-- Modelled from the spec: the scan-line point-in-polygon fill performed by
`skimage.draw.polygon`, whose body is outside this repository.  The spec
(§4.1) prescribes a point-in-polygon fill; this is the standard even-odd
crossing-number test: walking the edges `(vᵢ, vᵢ₋₁)` (cyclically), the
parity of the number of edges that span the point's row and cross it
strictly to its right.  Vertices are `(x, y)` pairs. -/
def pnpoly (verts : List (ℚ × ℚ)) (x y : ℚ) : Bool :=
  match verts with
  | [] => false
  | v0 :: _ =>
    (verts.zip (verts.getLastD v0 :: verts)).foldl
      (fun cr vij =>
        if (decide (y < vij.1.2) != decide (y < vij.2.2)) &&
            decide (x < (vij.2.1 - vij.1.1) * (y - vij.1.2) / (vij.2.2 - vij.1.2) + vij.1.1)
        then !cr else cr)
      false

/-- Embedding of `poly2mask` (helper.py lines 64-88) over the polygon fill
model `pnpoly`: per pixel, 1 where the fill covers the pixel and 0
elsewhere.  `pts` are the annotation vertices as `(x, y)` integer pairs;
`poly2mask` receives rows `points[:, 1]` and columns `points[:, 0]`. -/
def polyMask (hgt wdt : Nat) (pts : List (Int × Int)) : Grid Nat :=
  (List.range hgt).map fun (r : Nat) =>
    (List.range wdt).map fun (c : Nat) =>
      if pnpoly (pts.map fun p => ((p.1 : ℚ), (p.2 : ℚ))) (c : ℚ) (r : ℚ) then 1 else 0

/-- One entry of the `shapes` collection of the annotation document:
`label`, `shape_type`, the vertex list `points` (already cast
`.astype(np.int64)` as in the source), and the optional `scores.cls`. -/
structure Shape where
  label : String
  shape_type : String
  points : List (Int × Int)
  scores : Option ℚ

/-- The `results` dictionary produced by `json2results`. -/
structure Results where
  class_names : List String
  scores : List (Option ℚ)
  masks : List (Grid Nat)

/-- The mask built for one shape inside the loop of `json2results`
(helper.py lines 117-122): the rectangle branch when
`shape['shape_type'] == 'rectangle'`, and otherwise — for any other
`shape_type` string whatsoever — the `else` branch, which rasterizes the
points as a polygon. -/
def shapeMask (hgt wdt : Nat) (s : Shape) : Grid Nat :=
  if s.shape_type = "rectangle" then
    rectMask hgt wdt (s.points.getD 0 (0, 0)) (s.points.getD 1 (0, 0))
  else
    polyMask hgt wdt s.points

/-- Embedding of `json2results` (helper.py lines 90-129): parallel lists of
labels, optional scores (None when the `scores` key is absent), and one
mask per shape. -/
def json2results (shapes : List Shape) (hgt wdt : Nat) : Results :=
  { class_names := shapes.map fun s => s.label
    scores := shapes.map fun s => s.scores
    masks := shapes.map fun s => shapeMask hgt wdt s }

/-- Embedding of one channel of the color assembly
`food_rgb = (png[food_mask] - 255) / 255` in `tech_blog_demo.py`
(line 200).  `png` is a uint8 array (loaded by `cv2.imread`), so the
subtraction is performed in uint8 and wraps modulo 256 before the float
division by 255. -/
def food_rgb_val (rgb : Nat) : ℚ :=
  ((((rgb : Int) - 255) % 256 : Int) : ℚ) / 255

/-- Indexing a grid row built by mapping over `List.range`. -/
theorem getD_map_range {α : Type} (n : Nat) (f : Nat → α) (d : α) (i : Nat)
    (hi : i < n) : ((List.range n).map f).getD i d = f i := by
  rw [List.getD_eq_getElem?_getD, List.getElem?_map, List.getElem?_range hi]
  rfl

/-- Membership in the flattening of a grid built by mapping over ranges. -/
theorem mem_flatten_map_range (h w : Nat) (g : Nat → Nat → Int) (v : Int) :
    v ∈ ((List.range h).map fun r => (List.range w).map fun c => g r c).flatten ↔
      ∃ r, r < h ∧ ∃ c, c < w ∧ g r c = v := by
  simp [List.mem_flatten, List.mem_map, List.mem_range]

/-- Claim C1: for every depth image of shape (h, w) and intrinsics with
fx ≠ 0 and fy ≠ 0, `pix2point` returns an (h, w, 3) coordinate field whose
value at pixel (row, col) is (D·x', D·y', D) with x', y' given by the
Brown–Conrady correction of the normalized coordinates
x = (col − ppx)/fx, y = (row − ppy)/fy (radial terms from coefficient
indices 0, 1, 4; tangential terms from indices 2, 3). -/
theorem pix2point_unprojection_formula (depth : Grid ℚ) (intr : Intrinsics)
    (hgt wdt r c : Nat) (hh : depth.length = hgt)
    (hw : ∀ row ∈ depth, row.length = wdt)
    (hfx : intr.fx ≠ 0) (hfy : intr.fy ≠ 0) (hr : r < hgt) (hc : c < wdt) :
    (pix2point depth intr).length = hgt ∧
    (∀ row ∈ pix2point depth intr, row.length = wdt) ∧
    ((pix2point depth intr).getD r []).getD c (0, 0, 0) =
      (let x : ℚ := ((c : ℚ) - intr.ppx) / intr.fx
       let y : ℚ := ((r : ℚ) - intr.ppy) / intr.fy
       let r2 := x * x + y * y
       let f := 1 + intr.coeffs.getD 0 0 * r2 + intr.coeffs.getD 1 0 * (r2 * r2) +
         intr.coeffs.getD 4 0 * (r2 * r2 * r2)
       let x' := x * f + 2 * intr.coeffs.getD 2 0 * (x * y) +
         intr.coeffs.getD 3 0 * (r2 + 2 * (x * x))
       let y' := y * f + 2 * intr.coeffs.getD 3 0 * (x * y) +
         intr.coeffs.getD 2 0 * (r2 + 2 * (y * y))
       let d := (depth.getD r []).getD c 0
       (d * x', d * y', d)) := by
  have hne : depth ≠ [] := by
    rintro rfl
    simp at hh
    omega
  have hhead : (depth.headD []).length = wdt := by
    cases depth with
    | nil => exact absurd rfl hne
    | cons row0 rest => exact hw row0 (List.mem_cons_self row0 rest)
  refine ⟨?_, ?_, ?_⟩
  · simp [pix2point, hh]
  · intro row hrow
    simp only [pix2point, List.mem_map] at hrow
    obtain ⟨a, _, rfl⟩ := hrow
    rw [List.headD_eq_head?] at hhead
    simp [hhead]
  · simp only [pix2point]
    rw [getD_map_range depth.length _ _ r (hh ▸ hr),
      getD_map_range (depth.headD []).length _ _ c (hhead ▸ hc)]
    simp only [Prod.mk.injEq]
    refine ⟨by ring, by ring, trivial⟩

/-- Witness for C1: a 1×1 depth image with depth 3, ppx = 1, fx = fy = 1
and k1 = 1 back-projects to (-6, 0, 3). -/
theorem pix2point_unprojection_formula_witness :
    ((pix2point [[3]] ⟨1, 0, 1, 1, [1, 0, 0, 0, 0]⟩).getD 0 []).getD 0 (0, 0, 0) =
      (-6, 0, 3) := by
  have h := pix2point_unprojection_formula [[3]] ⟨1, 0, 1, 1, [1, 0, 0, 0, 0]⟩
    1 1 0 0 rfl (by decide) (by decide) (by decide) (by decide) (by decide)
  rw [h.2.2]
  norm_num

/-- Characterization of the enumerated overwrite fold: either no mask in the
tail hits the pixel and the accumulator is returned, or the last hitting
mask's enumeration index is returned. -/
theorem rank_foldl_char (r c : Nat) (ms : List (Grid Nat)) :
    ∀ (k : Nat) (acc : Int),
      ((ms.enumFrom k).foldl (rankStep r c) acc = acc ∧
        ∀ i (hi : i < ms.length), maskVal (ms.get ⟨i, hi⟩) r c ≠ 1) ∨
      (∃ i, ∃ hi : i < ms.length, maskVal (ms.get ⟨i, hi⟩) r c = 1 ∧
        (∀ j (hj : j < ms.length), i < j → maskVal (ms.get ⟨j, hj⟩) r c ≠ 1) ∧
        (ms.enumFrom k).foldl (rankStep r c) acc = (k : Int) + i) := by
  induction ms with
  | nil =>
    intro k acc
    left
    exact ⟨rfl, fun i hi => absurd hi (by simp)⟩
  | cons m ms ih =>
    intro k acc
    have hstep : ((m :: ms).enumFrom k).foldl (rankStep r c) acc =
        (ms.enumFrom (k + 1)).foldl (rankStep r c) (rankStep r c acc (k, m)) := rfl
    rcases ih (k + 1) (rankStep r c acc (k, m)) with ⟨heq, hall⟩ | ⟨i, hi, hhit, hlater, heq⟩
    · by_cases hm : maskVal m r c = 1
      · right
        refine ⟨0, by simp, by simpa using hm, ?_, ?_⟩
        · intro j hj hpos
          cases j with
          | zero => omega
          | succ j' => simpa using hall j' (by simpa using hj)
        · rw [hstep, heq, rankStep, if_pos hm]
          simp
      · left
        refine ⟨?_, ?_⟩
        · rw [hstep, heq, rankStep, if_neg hm]
        · intro i hi
          cases i with
          | zero => simpa using hm
          | succ i' => simpa using hall i' (by simpa using hi)
    · right
      refine ⟨i + 1, by simpa using Nat.succ_lt_succ hi, by simpa using hhit, ?_, ?_⟩
      · intro j hj hlt
        cases j with
        | zero => omega
        | succ j' => simpa using hlater j' (by simpa using hj) (by omega)
      · rw [hstep, heq]
        push_cast
        ring

/-- The label of a pixel is -1 when no mask hits it, and otherwise the
index of the last (hence largest-index) mask hitting it. -/
theorem labelAt_char (masks : List (Grid Nat)) (r c : Nat) :
    (labelAt masks r c = -1 ∧
      ∀ i (hi : i < masks.length), maskVal (masks.get ⟨i, hi⟩) r c ≠ 1) ∨
    (∃ i, ∃ hi : i < masks.length, maskVal (masks.get ⟨i, hi⟩) r c = 1 ∧
      (∀ j (hj : j < masks.length), i < j → maskVal (masks.get ⟨j, hj⟩) r c ≠ 1) ∧
      labelAt masks r c = (i : Int)) := by
  rcases rank_foldl_char r c masks 0 (-1) with ⟨heq, hall⟩ | ⟨i, hi, hhit, hlater, heq⟩
  · left
    exact ⟨heq, hall⟩
  · right
    refine ⟨i, hi, hhit, hlater, ?_⟩
    rw [labelAt]
    show (masks.enumFrom 0).foldl (rankStep r c) (-1) = (i : Int)
    rw [heq]
    simp

/-- Membership in a sorted insertion. -/
theorem mem_insertSorted (x y : Int) (l : List Int) :
    y ∈ insertSorted x l ↔ y = x ∨ y ∈ l := by
  induction l with
  | nil => simp [insertSorted]
  | cons a as ih =>
    by_cases h1 : x < a
    · simp [insertSorted, h1]
    · by_cases h2 : x = a
      · subst h2
        simp [insertSorted, h1]
      · simp [insertSorted, h1, h2, ih]
        tauto

/-- Sorted insertion preserves strict sortedness. -/
theorem sorted_insertSorted (x : Int) (l : List Int) (hl : l.Sorted (· < ·)) :
    (insertSorted x l).Sorted (· < ·) := by
  induction l with
  | nil => simp [insertSorted]
  | cons a as ih =>
    rw [List.sorted_cons] at hl
    obtain ⟨ha, has⟩ := hl
    by_cases h1 : x < a
    · rw [insertSorted, if_pos h1, List.sorted_cons]
      refine ⟨?_, List.sorted_cons.mpr ⟨ha, has⟩⟩
      intro b hb
      rcases List.mem_cons.mp hb with rfl | hb
      · exact h1
      · exact h1.trans (ha b hb)
    · by_cases h2 : x = a
      · rw [insertSorted, if_neg h1, if_pos h2]
        exact List.sorted_cons.mpr ⟨ha, has⟩
      · rw [insertSorted, if_neg h1, if_neg h2]
        refine List.sorted_cons.mpr ⟨?_, ih has⟩
        intro b hb
        rcases (mem_insertSorted x b as).mp hb with rfl | hb
        · omega
        · exact ha b hb

/-- `sortedDedup` keeps exactly the values of its input. -/
theorem mem_sortedDedup (l : List Int) (v : Int) :
    v ∈ sortedDedup l ↔ v ∈ l := by
  induction l with
  | nil => simp [sortedDedup]
  | cons a as ih =>
    show v ∈ insertSorted a (sortedDedup as) ↔ _
    rw [mem_insertSorted, ih]
    simp

/-- `sortedDedup` returns a strictly ascending list. -/
theorem sorted_sortedDedup (l : List Int) : (sortedDedup l).Sorted (· < ·) := by
  induction l with
  | nil => simp [sortedDedup]
  | cons a as ih => exact sorted_insertSorted a _ ih

/-- Claim C2: for every non-empty ordered mask list over a common (hgt, wdt)
grid and every pixel, the Label Image built by `get_food_mask` holds the
largest instance index whose mask is 1 at that pixel (last writer wins),
and the background sentinel -1 when no mask is 1 there. -/
theorem get_food_mask_last_writer_wins (masks : List (Grid Nat))
    (hgt wdt r c : Nat) (hne : masks ≠ [])
    (hshape : ∀ m ∈ masks, m.length = hgt ∧ ∀ row ∈ m, row.length = wdt)
    (hr : r < hgt) (hc : c < wdt) :
    ∃ ranked idxs, get_food_mask masks = some (ranked, idxs) ∧
      ((∀ i (hi : i < masks.length), maskVal (masks.get ⟨i, hi⟩) r c ≠ 1) →
        (ranked.getD r []).getD c 0 = -1) ∧
      (∀ i (hi : i < masks.length), maskVal (masks.get ⟨i, hi⟩) r c = 1 →
        (∀ j (hj : j < masks.length), i < j → maskVal (masks.get ⟨j, hj⟩) r c ≠ 1) →
        (ranked.getD r []).getD c 0 = (i : Int)) := by
  cases masks with
  | nil => exact absurd rfl hne
  | cons m0 rest =>
    have h1 : m0.length = hgt := (hshape m0 (List.mem_cons_self m0 rest)).1
    have h2 : (m0.headD []).length = wdt := by
      cases m0 with
      | nil =>
        simp at h1
        omega
      | cons row0 rows =>
        exact (hshape _ (List.mem_cons_self _ _)).2 row0 (List.mem_cons_self _ _)
    refine ⟨_, _, rfl, ?_, ?_⟩
    · intro hnone
      rcases labelAt_char (m0 :: rest) r c with ⟨heq, _⟩ | ⟨i, hi, hhit, _, _⟩
      · rw [getD_map_range _ _ _ r (h1 ▸ hr), getD_map_range _ _ _ c (h2 ▸ hc), heq]
      · exact absurd hhit (hnone i hi)
    · intro i hi hhit hlater
      rcases labelAt_char (m0 :: rest) r c with ⟨_, hall⟩ | ⟨i', hi', hhit', hlater', heq'⟩
      · exact absurd hhit (hall i hi)
      · rw [getD_map_range _ _ _ r (h1 ▸ hr), getD_map_range _ _ _ c (h2 ▸ hc), heq']
        have hii : i = i' := by
          rcases Nat.lt_trichotomy i i' with h | h | h
          · exact absurd hhit' (hlater i' hi' h)
          · exact h
          · exact absurd hhit (hlater' i hi h)
        rw [hii]

/-- Witness for C2: with two overlapping 1×1 masks, the later instance's
index 1 is the label of the shared pixel. -/
theorem get_food_mask_last_writer_wins_witness :
    ∃ ranked idxs, get_food_mask [[[1]], [[1]]] = some (ranked, idxs) ∧
      (ranked.getD 0 []).getD 0 0 = 1 := by
  obtain ⟨ranked, idxs, heq, _, hwin⟩ :=
    get_food_mask_last_writer_wins [[[1]], [[1]]] 1 1 0 0 (by simp)
      (by decide) (by decide) (by decide)
  refine ⟨ranked, idxs, heq, ?_⟩
  have h := hwin 1 (by decide) (by decide)
    (fun j hj hlt => absurd hlt (by simp at hj; omega))
  simpa using h

/-- Claim C3: for every non-empty mask set, the present-index list of
`get_food_mask` is strictly ascending and holds exactly the non-background
values of the Label Image; an instance whose every hit pixel is also hit by
a later instance is absent from it. -/
theorem get_food_mask_present_indices (masks : List (Grid Nat)) (hgt wdt : Nat)
    (hne : masks ≠ [])
    (hshape : ∀ m ∈ masks, m.length = hgt ∧ ∀ row ∈ m, row.length = wdt)
    (hlen : masks.length ≤ 2 ^ 15) :
    ∃ ranked idxs, get_food_mask masks = some (ranked, idxs) ∧
      idxs.Sorted (· < ·) ∧
      (∀ v : Int, v ∈ idxs ↔ v ≠ -1 ∧ v ∈ ranked.flatten) ∧
      (∀ i (hi : i < masks.length),
        (∀ r c, r < hgt → c < wdt → maskVal (masks.get ⟨i, hi⟩) r c = 1 →
          ∃ j, ∃ hj : j < masks.length, i < j ∧ maskVal (masks.get ⟨j, hj⟩) r c = 1) →
        (i : Int) ∉ idxs) := by
  cases masks with
  | nil => exact absurd rfl hne
  | cons m0 rest =>
    have h1 : m0.length = hgt := (hshape m0 (List.mem_cons_self m0 rest)).1
    refine ⟨_, _, rfl, ?_, ?_, ?_⟩
    all_goals
      have hbound : ∀ u ∈ sortedDedup ((List.range m0.length).map fun r =>
          (List.range (m0.headD []).length).map fun c =>
            labelAt (m0 :: rest) r c).flatten, toInt16 u = u := by
        intro u hu
        rw [mem_sortedDedup, mem_flatten_map_range] at hu
        obtain ⟨r, _, cc, _, hval⟩ := hu
        have hu' : u = -1 ∨ ∃ i : Nat, i < (m0 :: rest).length ∧ u = (i : Int) := by
          rcases labelAt_char (m0 :: rest) r cc with ⟨heq, _⟩ | ⟨i, hi, _, _, heq⟩
          · left; omega
          · right; exact ⟨i, hi, by omega⟩
        have hcard : ((m0 :: rest).length : Int) ≤ 2 ^ 15 := by exact_mod_cast hlen
        rcases hu' with rfl | ⟨i, hi, rfl⟩
        · rw [toInt16]; omega
        · have : (i : Int) < 2 ^ 15 := by
            have : (i : Int) < ((m0 :: rest).length : Int) := by exact_mod_cast hi
            omega
          rw [toInt16]
          omega
      have hid : (sortedDedup ((List.range m0.length).map fun r =>
          (List.range (m0.headD []).length).map fun c =>
            labelAt (m0 :: rest) r c).flatten).map toInt16 =
          sortedDedup ((List.range m0.length).map fun r =>
            (List.range (m0.headD []).length).map fun c =>
              labelAt (m0 :: rest) r c).flatten := by
        rw [List.map_congr_left hbound]
        simp
      rw [hid]
    · exact List.Pairwise.filter _ (sorted_sortedDedup _)
    · intro v
      rw [List.mem_filter, mem_sortedDedup]
      simp [and_comm]
    · intro i hi hocc hmem
      rw [List.mem_filter, mem_sortedDedup, mem_flatten_map_range] at hmem
      obtain ⟨⟨r, hrlt, cc, hclt, hval⟩, _⟩ := hmem
      have h2 : (m0.headD []).length = wdt := by
        cases m0 with
        | nil => simp at hrlt
        | cons row0 rows =>
          exact (hshape _ (List.mem_cons_self _ _)).2 row0 (List.mem_cons_self _ _)
      rcases labelAt_char (m0 :: rest) r cc with ⟨heq, _⟩ | ⟨i', hi', hhit', hlater', heq'⟩
      · rw [heq] at hval
        omega
      · rw [heq'] at hval
        have hii : i' = i := by exact_mod_cast hval
        subst hii
        obtain ⟨j, hj, hlt, hhitj⟩ :=
          hocc r cc (h1 ▸ hrlt) (h2 ▸ hclt) hhit'
        exact hlater' j hj hlt hhitj

/-- Witness for C3: instance 0, fully covered by instance 1 on a 1×1 grid,
is absent from the present-index list. -/
theorem get_food_mask_present_indices_witness :
    ∃ ranked idxs, get_food_mask [[[1]], [[1]]] = some (ranked, idxs) ∧
      (0 : Int) ∉ idxs := by
  obtain ⟨ranked, idxs, heq, _, _, hocc⟩ :=
    get_food_mask_present_indices [[[1]], [[1]]] 1 1 (by simp) (by decide) (by decide)
  refine ⟨ranked, idxs, heq, ?_⟩
  refine hocc 0 (by decide) ?_
  intro r c hr hc _
  have hr0 : r = 0 := by omega
  have hc0 : c = 0 := by omega
  subst hr0
  subst hc0
  exact ⟨1, by decide, by decide, by decide⟩

/-- Claim C4 (code bug): `pix2point` has no zero-focal-length guard; called
with fx = 0 it returns an ordinary coordinate field instead of raising a
fatal configuration error.  (In the ℚ embedding division is total; in numpy
the same call silently fills the array with non-finite values — in neither
semantics is an error surfaced to the caller.) -/
theorem pix2point_zero_focal_no_error :
    pix2point [[5]] ⟨0, 0, 0, 1, [0, 0, 0, 0, 0]⟩ = [[(0, 0, 5)]] := by
  simp [pix2point, List.range_succ]

/-- Claim C5 (code bug): decoding an empty shapes collection does yield zero
masks, but ranking the resulting empty Instance Mask Set does not return
normally: `get_food_mask` reads `results["masks"][0].shape` and raises
`IndexError` (modelled by `none`) instead of returning an all-background
Label Image with an empty present-index set. -/
theorem empty_annotation_decoder_and_ranker :
    json2results [] 5 5 = ⟨[], [], []⟩ ∧ get_food_mask [] = none :=
  ⟨rfl, rfl⟩

/-- Claim C6 (code bug): a shape whose `shape_type` is neither "rectangle"
nor "polygon" does not raise a fatal configuration error: the decoder's
`else` branch silently rasterizes its points as a polygon and returns
normally. -/
theorem json2results_unknown_kind_uses_polygon :
    json2results [⟨"obj", "circle", [(0, 0), (4, 0), (2, 3)], none⟩] 5 5 =
      ⟨["obj"], [none], [polyMask 5 5 [(0, 0), (4, 0), (2, 3)]]⟩ :=
  rfl

/-- The rectangle branch of `shapeMask` at explicit corner coordinates,
with the vertex-list lookups and pair projections reduced. -/
theorem shapeMask_rectangle (hgt wdt : Nat) (lab : String) (sc : Option ℚ)
    (x0 y0 x1 y1 : Int) :
    shapeMask hgt wdt ⟨lab, "rectangle", [(x0, y0), (x1, y1)], sc⟩ =
      (List.range hgt).map fun r =>
        (List.range wdt).map fun c =>
          if sliceIdx hgt y0 ≤ r ∧ r < sliceIdx hgt y1 ∧
              sliceIdx wdt x0 ≤ c ∧ c < sliceIdx wdt x1 then 1 else 0 :=
  rfl

/-- Claim C7: a rectangle annotation with integer corners (col0, row0)
top-left and (col1, row1) bottom-right inside the grid decodes to the mask
that is 1 exactly for rows in [row0, row1) and columns in [col0, col1). -/
theorem json2results_rectangle_mask (hgt wdt : Nat) (col0 row0 col1 row1 : Int)
    (h1 : 0 ≤ col0) (h2 : col0 ≤ col1) (h3 : col1 ≤ (wdt : Int))
    (h4 : 0 ≤ row0) (h5 : row0 ≤ row1) (h6 : row1 ≤ (hgt : Int))
    (lab : String) (sc : Option ℚ) (r c : Nat) (hr : r < hgt) (hc : c < wdt) :
    maskVal (shapeMask hgt wdt ⟨lab, "rectangle", [(col0, row0), (col1, row1)], sc⟩) r c =
      if row0 ≤ (r : Int) ∧ (r : Int) < row1 ∧ col0 ≤ (c : Int) ∧ (c : Int) < col1
      then 1 else 0 := by
  rw [shapeMask_rectangle, maskVal, getD_map_range _ _ _ r hr,
    getD_map_range _ _ _ c hc]
  have e1 : sliceIdx hgt row0 = row0.toNat := by
    rw [sliceIdx]
    split_ifs <;> omega
  have e2 : sliceIdx hgt row1 = row1.toNat := by
    rw [sliceIdx]
    split_ifs <;> omega
  have e3 : sliceIdx wdt col0 = col0.toNat := by
    rw [sliceIdx]
    split_ifs <;> omega
  have e4 : sliceIdx wdt col1 = col1.toNat := by
    rw [sliceIdx]
    split_ifs <;> omega
  simp only [e1, e2, e3, e4]
  split_ifs <;> omega

/-- Witness for C7: corners (1,1)-(3,3) on a 5×5 grid give mask value 1 at
pixel (2, 2). -/
theorem json2results_rectangle_mask_witness :
    maskVal (shapeMask 5 5 ⟨"food", "rectangle", [(1, 1), (3, 3)], none⟩) 2 2 = 1 := by
  rw [json2results_rectangle_mask 5 5 1 1 3 3 (by omega) (by omega) (by omega)
    (by omega) (by omega) (by omega) "food" none 2 2 (by omega) (by omega)]
  norm_num

/-- Claim C10: a rectangle annotation with 0 ≤ col0 ≤ col1 and
0 ≤ row0 ≤ row1 whose bottom-right corner exceeds the grid decodes without
error to the rectangle silently clipped to the grid: the mask is 1 exactly
on rows [row0, min(row1, hgt)) × columns [col0, min(col1, wdt)). -/
theorem json2results_rectangle_out_of_grid_clips (hgt wdt : Nat)
    (col0 row0 col1 row1 : Int)
    (h1 : 0 ≤ col0) (h2 : col0 ≤ col1) (h4 : 0 ≤ row0) (h5 : row0 ≤ row1)
    (hex : (wdt : Int) < col1 ∨ (hgt : Int) < row1)
    (lab : String) (sc : Option ℚ) (r c : Nat) (hr : r < hgt) (hc : c < wdt) :
    maskVal (shapeMask hgt wdt ⟨lab, "rectangle", [(col0, row0), (col1, row1)], sc⟩) r c =
      if row0 ≤ (r : Int) ∧ (r : Int) < min row1 (hgt : Int) ∧
          col0 ≤ (c : Int) ∧ (c : Int) < min col1 (wdt : Int)
      then 1 else 0 := by
  rw [shapeMask_rectangle, maskVal, getD_map_range _ _ _ r hr,
    getD_map_range _ _ _ c hc]
  have e1 : (sliceIdx hgt row0 : Int) = min (hgt : Int) row0 := by
    rw [sliceIdx]
    split_ifs <;> omega
  have e2 : (sliceIdx hgt row1 : Int) = min (hgt : Int) row1 := by
    rw [sliceIdx]
    split_ifs <;> omega
  have e3 : (sliceIdx wdt col0 : Int) = min (wdt : Int) col0 := by
    rw [sliceIdx]
    split_ifs <;> omega
  have e4 : (sliceIdx wdt col1 : Int) = min (wdt : Int) col1 := by
    rw [sliceIdx]
    split_ifs <;> omega
  split_ifs <;> omega

/-- Witness for C10: corners (1,1)-(9,7) on a 5×5 grid clip to rows [1,5) ×
cols [1,5); pixel (4,4) is covered even though it is outside the annotated
rectangle's nominal interior bound checks against 7 and 9. -/
theorem json2results_rectangle_out_of_grid_clips_witness :
    maskVal (shapeMask 5 5 ⟨"food", "rectangle", [(1, 1), (9, 7)], none⟩) 4 4 = 1 := by
  rw [json2results_rectangle_out_of_grid_clips 5 5 1 1 9 7 (by omega) (by omega)
    (by omega) (by omega) (by omega) "food" none 4 4 (by omega) (by omega)]
  norm_num

/-- The even-odd fill of a polygon whose ordered vertices are the four
corners of an axis-aligned rectangle covers exactly the half-open box
[r0, r1) × [c0, c1): the left/top edges are inside, the right/bottom edges
outside. -/
theorem pnpoly_rect (c0 r0 c1 r1 x y : ℚ) (hcc : c0 < c1) (hrr : r0 < r1) :
    pnpoly [(c0, r0), (c1, r0), (c1, r1), (c0, r1)] x y =
      decide (r0 ≤ y ∧ y < r1 ∧ c0 ≤ x ∧ x < c1) := by
  have hlast : ([(c0, r0), (c1, r0), (c1, r1), (c0, r1)] : List (ℚ × ℚ)).getLastD (c0, r0) =
      (c0, r1) := rfl
  simp only [pnpoly, hlast, List.zip, List.zipWith, List.foldl, sub_self, zero_mul,
    zero_div, zero_add, bne_self_eq_false, Bool.false_and, Bool.and_eq_true,
    Bool.false_eq_true, if_false]
  rcases lt_or_le y r0 with h1 | h1
  · have h2 : y < r1 := h1.trans hrr
    simp [h1, h2, not_le.mpr h1]
  · rcases lt_or_le y r1 with h2 | h2
    · rcases lt_or_le x c0 with h3 | h3
      · have h4 : x < c1 := h3.trans hcc
        simp [not_lt.mpr h1, h2, h3, h4, not_le.mpr h3]
      · rcases lt_or_le x c1 with h4 | h4
        · simp [not_lt.mpr h1, h2, not_lt.mpr h3, h4, h1, h3]
        · simp [not_lt.mpr h1, h2, not_lt.mpr h3, not_lt.mpr h4]
    · simp [not_lt.mpr h1, not_lt.mpr h2, h1]

/-- Claim C8: decoding a polygon annotation whose ordered vertices are the
four corners of an axis-aligned rectangle produces the same mask as
decoding the corresponding rectangle annotation: the two decoding paths of
`json2results` agree. -/
theorem json2results_polygon_rectangle_agree (hgt wdt : Nat) (c0 r0 c1 r1 : Int)
    (hc0 : 0 ≤ c0) (hcc : c0 < c1) (hr0 : 0 ≤ r0) (hrr : r0 < r1)
    (lab1 lab2 : String) (sc1 sc2 : Option ℚ) :
    shapeMask hgt wdt ⟨lab1, "polygon", [(c0, r0), (c1, r0), (c1, r1), (c0, r1)], sc1⟩ =
      shapeMask hgt wdt ⟨lab2, "rectangle", [(c0, r0), (c1, r1)], sc2⟩ := by
  have hpoly : shapeMask hgt wdt
      ⟨lab1, "polygon", [(c0, r0), (c1, r0), (c1, r1), (c0, r1)], sc1⟩ =
      polyMask hgt wdt [(c0, r0), (c1, r0), (c1, r1), (c0, r1)] := rfl
  rw [hpoly, shapeMask_rectangle, polyMask]
  refine List.map_congr_left ?_
  intro r hrmem
  rw [List.mem_range] at hrmem
  refine List.map_congr_left ?_
  intro c hcmem
  rw [List.mem_range] at hcmem
  have hmap : ([(c0, r0), (c1, r0), (c1, r1), (c0, r1)] : List (Int × Int)).map
      (fun p => ((p.1 : ℚ), (p.2 : ℚ))) =
      [((c0 : ℚ), (r0 : ℚ)), ((c1 : ℚ), (r0 : ℚ)), ((c1 : ℚ), (r1 : ℚ)),
        ((c0 : ℚ), (r1 : ℚ))] := rfl
  rw [hmap, pnpoly_rect _ _ _ _ _ _ (by exact_mod_cast hcc) (by exact_mod_cast hrr)]
  have q1 : (((r0 : ℚ)) ≤ ((r : ℚ))) ↔ r0 ≤ (r : Int) := by
    rw [show ((r : ℚ)) = (((r : Int) : ℚ)) by push_cast; ring]
    exact Int.cast_le
  have q2 : (((r : ℚ)) < ((r1 : ℚ))) ↔ (r : Int) < r1 := by
    rw [show ((r : ℚ)) = (((r : Int) : ℚ)) by push_cast; ring]
    exact Int.cast_lt
  have q3 : (((c0 : ℚ)) ≤ ((c : ℚ))) ↔ c0 ≤ (c : Int) := by
    rw [show ((c : ℚ)) = (((c : Int) : ℚ)) by push_cast; ring]
    exact Int.cast_le
  have q4 : (((c : ℚ)) < ((c1 : ℚ))) ↔ (c : Int) < c1 := by
    rw [show ((c : ℚ)) = (((c : Int) : ℚ)) by push_cast; ring]
    exact Int.cast_lt
  simp only [decide_eq_true_eq, q1, q2, q3, q4]
  have e1 : (sliceIdx hgt r0 : Int) = min (hgt : Int) r0 := by
    rw [sliceIdx]
    split_ifs <;> omega
  have e2 : (sliceIdx hgt r1 : Int) = min (hgt : Int) r1 := by
    rw [sliceIdx]
    split_ifs <;> omega
  have e3 : (sliceIdx wdt c0 : Int) = min (wdt : Int) c0 := by
    rw [sliceIdx]
    split_ifs <;> omega
  have e4 : (sliceIdx wdt c1 : Int) = min (wdt : Int) c1 := by
    rw [sliceIdx]
    split_ifs <;> omega
  split_ifs <;> omega

/-- Witness for C8: the polygon with vertices (1,1), (3,1), (3,3), (1,3) on
a 5×5 grid decodes to the same mask as the rectangle (1,1)-(3,3). -/
theorem json2results_polygon_rectangle_agree_witness :
    shapeMask 5 5 ⟨"food", "polygon", [(1, 1), (3, 1), (3, 3), (1, 3)], none⟩ =
      shapeMask 5 5 ⟨"tray", "rectangle", [(1, 1), (3, 3)], none⟩ :=
  json2results_polygon_rectangle_agree 5 5 1 1 3 3 (by omega) (by omega)
    (by omega) (by omega) "food" "tray" none none

/-- Claim C9 counterexample: at the 8-bit channel value 0, the color
assembled by `(png[food_mask] - 255) / 255` is 1/255, not the claimed
(0 − 255)/255 = −1, because `png` is uint8 and the subtraction wraps
modulo 256 before the division. -/
theorem food_rgb_val_not_sign_inverted :
    ¬(food_rgb_val 0 = ((0 : ℚ) - 255) / 255 ∧
      -1 ≤ food_rgb_val 0 ∧ food_rgb_val 0 ≤ 0) := by
  intro h
  have hv : food_rgb_val 0 = 1 / 255 := by
    rw [food_rgb_val]
    norm_num
  rw [hv] at h
  have := h.2.2
  norm_num at this

/-- Claim C9 amended: for 8-bit channel values rgb in [0, 255], the color
value assembled into the point cloud equals ((rgb + 1) mod 256)/255 — the
uint8 wraparound of (rgb − 255) divided by 255 — and lies in [0, 1], not
in [-1, 0]. -/
theorem food_rgb_val_wraps (rgb : Nat) (h : rgb ≤ 255) :
    food_rgb_val rgb = (((rgb + 1) % 256 : Nat) : ℚ) / 255 ∧
      0 ≤ food_rgb_val rgb ∧ food_rgb_val rgb ≤ 1 := by
  have hn : ((rgb : Int) - 255) % 256 = (((rgb + 1) % 256 : Nat) : Int) := by
    omega
  have hv : food_rgb_val rgb = (((rgb + 1) % 256 : Nat) : ℚ) / 255 := by
    rw [food_rgb_val, hn]
    rw [Int.cast_natCast]
  refine ⟨hv, ?_, ?_⟩
  · rw [hv]
    positivity
  · rw [hv]
    rw [div_le_one (by norm_num)]
    have hb : ((rgb + 1) % 256 : Nat) ≤ 255 := by omega
    exact_mod_cast hb

/-- Witness for the amended C9: at channel value 0 the assembled color is
1/255, which lies in [0, 1]. -/
theorem food_rgb_val_wraps_witness :
    food_rgb_val 0 = (((0 + 1) % 256 : Nat) : ℚ) / 255 ∧
      0 ≤ food_rgb_val 0 ∧ food_rgb_val 0 ≤ 1 :=
  food_rgb_val_wraps 0 (by omega)
